import Mathlib

/-!
Verification of the civjs ruleset-conversion scripts.

Shallow embedding of the three Python scripts:
* `parse_units.py`   — `parse_reqs`, `parse_flags`, `parse_roles`, `parse_unit_section`
* `create_freeciv_units.py` — `clean_name`, `get_tech_requirement`, `get_obsolete_by`,
  the `enhanced_unit` record builder and the `tech_mappings` table
* `tech_analysis.py` — `techs_raw` (projected to the fields the cost function reads)
  and `calculate_classic_cost`

Python strings are modelled as `List Char` (`Line`); Python dicts holding
parsed unit data are modelled as association lists with replace-on-insert
semantics (`RawRecord`).  Machine floats appear only in
`calculate_classic_cost`, where the computed quantity
`20*(1+n)*sqrt(1+n)/2 = sqrt(100*(1+n)^3)` is embedded exactly via `Nat.sqrt`;
the bridging theorem to the real-valued formula is proved below.
-/

set_option maxHeartbeats 1000000

abbrev Line := List Char

/-- Whitespace recognised by Python `str.strip()` (the ASCII subset; the
ruleset files are ASCII). -/
def isPyWS (c : Char) : Bool :=
  c = ' ' || c = '\t' || c = '\n' || c = '\r' || c = '\x0b' || c = '\x0c'

/-- Python `s.strip()`: drop whitespace from both ends. -/
def stripL (l : Line) : Line :=
  ((l.dropWhile isPyWS).reverse.dropWhile isPyWS).reverse

/-- Test for a double-quote character. -/
def isQuote (c : Char) : Bool := c = '\"'

/-- Python `s.strip('"')`: drop double quotes from both ends. -/
def stripQuotesL (l : Line) : Line :=
  ((l.dropWhile isQuote).reverse.dropWhile isQuote).reverse

/-- Python `s.endswith('}')`. -/
def endsBrace (l : Line) : Bool := l.reverse.head? = some '\x7d'

/-- Nonempty digit run with optional single underscores between digits, as
Python `int()` accepts. -/
def undDigits : Line → Bool
  | [] => false
  | [c] => c.isDigit
  | c :: '_' :: rest => c.isDigit && undDigits rest
  | c :: rest => c.isDigit && undDigits rest

/-- Numeric value of a digit run (underscores already removed). -/
def digitsVal (l : Line) : Nat :=
  l.foldl (fun n c => 10 * n + (c.toNat - 48)) 0

/-- Python `int(s)`: optional surrounding whitespace, optional sign, digits
(with optional single underscores); `none` models `ValueError`. -/
def pyInt (s : Line) : Option Int :=
  match stripL s with
  | '+' :: rest =>
      if undDigits rest then some (Int.ofNat (digitsVal (rest.filter (fun c => c ≠ '_')))) else none
  | '-' :: rest =>
      if undDigits rest then some (-(Int.ofNat (digitsVal (rest.filter (fun c => c ≠ '_'))))) else none
  | rest =>
      if undDigits rest then some (Int.ofNat (digitsVal (rest.filter (fun c => c ≠ '_')))) else none

/-- ASCII uppercase/lowercase letter pairs. -/
def upperLower : List (Char × Char) :=
  [('A','a'),('B','b'),('C','c'),('D','d'),('E','e'),('F','f'),('G','g'),
   ('H','h'),('I','i'),('J','j'),('K','k'),('L','l'),('M','m'),('N','n'),
   ('O','o'),('P','p'),('Q','q'),('R','r'),('S','s'),('T','t'),('U','u'),
   ('V','v'),('W','w'),('X','x'),('Y','y'),('Z','z')]

/-- Python `c.lower()` on one character (ASCII; the tech names are ASCII). -/
def pyLowerChar (c : Char) : Char :=
  match upperLower.find? (fun p => p.1 = c) with
  | some p => p.2
  | none => c

/-- ASCII uppercase test, phrased over the same table as `pyLowerChar`. -/
def isUpperA (c : Char) : Bool :=
  (upperLower.find? (fun p => p.1 = c)).isSome

/-- One step of Python `s.replace(' ', '_')`. -/
def spaceToUnd (c : Char) : Char := if c = ' ' then '_' else c

/-- Python `s.lower().replace(' ', '_')`. -/
def pyLowerUnd (s : Line) : Line := (s.map pyLowerChar).map spaceToUnd

/-- One parsed requirement, `{"type": ..., "name": ..., "range": ...}`. -/
structure Req where
  rtype : Line
  rname : Line
  rrange : Line
deriving DecidableEq, Repr

/-- A Python value stored in a parsed unit record: an int, a string, a list,
or the parsed requirements list. -/
inductive Value where
  | vint : Int → Value
  | vstr : Line → Value
  | vlist : List Value → Value
  | vreqs : List Req → Value

/-- A parsed unit record: a Python dict as an insertion-ordered association
list with replace-on-insert semantics. -/
abbrev RawRecord := List (Line × Value)

/-- Python dict assignment `r[k] = v`. -/
def insertRec : RawRecord → Line → Value → RawRecord
  | [], k, v => [(k, v)]
  | (k', v') :: t, k, v => if k' = k then (k, v) :: t else (k', v') :: insertRec t k v

/-- Python `r.get(k)`. -/
def lookupRec (k : Line) (r : RawRecord) : Option Value :=
  (r.find? (fun p => p.1 = k)).map (fun p => p.2)

/-- Keys of the record, in insertion order. -/
def recKeys (r : RawRecord) : List Line := r.map (fun p => p.1)

/-- Whitespace recognised by the regex class `\s` (ASCII range). -/
def isReWS (c : Char) : Bool :=
  c = ' ' || c = '\t' || c = '\n' || c = '\r' || c = '\x0b' || c = '\x0c'

/-- Match of the regex `"Tech",\s*"([^"]+)"` anchored at the start of `s`,
returning the capture group. -/
def matchTechAt (s : Line) : Option Line :=
  if ("\"Tech\",".data).isPrefixOf s then
    match (s.drop 7).dropWhile isReWS with
    | '\"' :: r2 =>
      let w := r2.takeWhile (fun c => c ≠ '\"')
      if w ≠ [] ∧ (r2.drop w.length).head? = some '\"' then some w else none
    | _ => none
  else none

/-- Leftmost match, as `re.search` computes it. -/
def searchTech : Line → Option Line
  | [] => none
  | c :: t =>
    match matchTechAt (c :: t) with
    | some w => some w
    | none => searchTech t

/-- Embeds `parse_reqs` of `parse_units.py`. -/
def parse_reqs (buf : Line) : List Req :=
  if buf = [] then []
  else
    match searchTech buf with
    | some w => [⟨"Tech".data, w, "Player".data⟩]
    | none => []

/-- Embeds `parse_flags` of `parse_units.py`. -/
def parse_flags (s : Line) : List Line :=
  if s = [] ∨ stripL s = ['\"', '\"'] then []
  else
    let clean := stripL (stripQuotesL s)
    if clean = [] then []
    else ((clean.splitOn ',').filter (fun f => stripL f ≠ [])).map (fun f => stripQuotesL (stripL f))

/-- Embeds `parse_roles` of `parse_units.py` (same body as `parse_flags`). -/
def parse_roles (s : Line) : List Line :=
  if s = [] ∨ stripL s = ['\"', '\"'] then []
  else
    let clean := stripL (stripQuotesL s)
    if clean = [] then []
    else ((clean.splitOn ',').filter (fun f => stripL f ≠ [])).map (fun f => stripQuotesL (stripL f))

/-- The fixed numeric-field set of `parse_unit_section`. -/
def numericKeys : List Line :=
  ["build_cost".data, "pop_cost".data, "attack".data, "defense".data, "hitpoints".data,
   "firepower".data, "move_rate".data, "vision_radius_sq".data, "transport_cap".data,
   "fuel".data, "uk_happy".data, "uk_shield".data, "uk_food".data, "uk_gold".data]

/-- The `else` branch of the loop body of `parse_unit_section`: ordinary
`key = value` handling of a stripped line. -/
def applyKV (r : RawRecord) (line : Line) : RawRecord :=
  if '=' ∈ line then
    let key := stripL (line.takeWhile (fun c => c ≠ '='))
    let value := stripQuotesL (stripL ((line.dropWhile (fun c => c ≠ '=')).tail))
    if key ∈ numericKeys then
      match pyInt value with
      | some n => insertRec r key (Value.vint n)
      | none => insertRec r key (Value.vstr value)
    else if key = "flags".data then insertRec r key (Value.vlist ((parse_flags value).map Value.vstr))
    else if key = "roles".data then insertRec r key (Value.vlist ((parse_roles value).map Value.vstr))
    else insertRec r key (Value.vstr value)
  else r

/-- The while loop of `parse_unit_section`.  `first` is true exactly when the
line about to be examined is at index `start_idx + 1` (the Python condition
`i > start_idx + 1` is `first = false`); `inReqs` and `buf` are the
requirements-accumulation state. -/
def parseLoop : List Line → Bool → RawRecord → Bool → Line → RawRecord
  | [], _, r, _, _ => r
  | l :: rest, first, r, inReqs, buf =>
    let s := stripL l
    if ("[".data).isPrefixOf s ∧ ¬ ("[unit_".data).isPrefixOf s then r
    else if ("[unit_".data).isPrefixOf s ∧ first = false then r
    else if ("reqs".data).isPrefixOf s then parseLoop rest false r true s
    else if inReqs then
      if endsBrace (stripL s) then
        parseLoop rest false (insertRec r ("reqs".data) (Value.vreqs (parse_reqs (buf ++ ' ' :: s)))) false []
      else parseLoop rest false r true (buf ++ ' ' :: s)
    else parseLoop rest false (applyKV r s) false buf

/-- Embeds `parse_unit_section` of `parse_units.py`. -/
def parse_unit_section (lines : List Line) (start : Nat) : RawRecord :=
  parseLoop (lines.drop (start + 1)) true [] false []

/-- Match of the regex pattern for a plain translated name (an underscore,
an opening parenthesis, a quoted nonempty run of non-quote characters, a
closing parenthesis) anchored at the start of `s`, returning the capture. -/
def matchPlainAt (s : Line) : Option Line :=
  match s with
  | '_' :: '(' :: '\"' :: r =>
    let w := r.takeWhile (fun c => c ≠ '\"')
    if w ≠ [] ∧ (r.drop w.length).take 2 = ['\"', ')'] then some w else none
  | _ => none

/-- Leftmost match of the plain-name pattern, as `re.search` computes it. -/
def searchPlain : Line → Option Line
  | [] => none
  | c :: t =>
    match matchPlainAt (c :: t) with
    | some w => some w
    | none => searchPlain t

/-- Match of the regex pattern for a disambiguated translated name (as above
but with a question mark, a run of non-colon characters and a colon before
the captured text) anchored at the start of `s`. -/
def matchCtxAt (s : Line) : Option Line :=
  match s with
  | '_' :: '(' :: '\"' :: '?' :: r =>
    match r.dropWhile (fun c => c ≠ ':') with
    | ':' :: r2 =>
      let w := r2.takeWhile (fun c => c ≠ '\"')
      if w ≠ [] ∧ (r2.drop w.length).take 2 = ['\"', ')'] then some w else none
    | _ => none
  | _ => none

/-- Leftmost match of the disambiguated-name pattern. -/
def searchCtx : Line → Option Line
  | [] => none
  | c :: t =>
    match matchCtxAt (c :: t) with
    | some w => some w
    | none => searchCtx t

/-- Embeds `clean_name` of `create_freeciv_units.py`, including its dead
second branch: a string starting with the disambiguated opener also starts
with the plain opener, so the first branch always fires first. -/
def clean_name (s : Line) : Line :=
  if ("_(\"".data).isPrefixOf s then
    match searchPlain s with
    | some w => w
    | none => stripQuotesL s
  else if ("_(\"?".data).isPrefixOf s then
    match searchCtx s with
    | some w => w
    | none => stripQuotesL s
  else stripQuotesL s

/-- Embeds the `tech_mappings` table of `create_freeciv_units.py`. -/
def tech_mappings : List (Line × Line) :=
  [("Bronze Working".data, "bronze_working".data),
   ("Warrior Code".data, "warrior_code".data),
   ("Iron Working".data, "iron_working".data),
   ("Horseback Riding".data, "horseback_riding".data),
   ("The Wheel".data, "the_wheel".data),
   ("Map Making".data, "map_making".data),
   ("Writing".data, "writing".data),
   ("Pottery".data, "pottery".data),
   ("Mathematics".data, "mathematics".data),
   ("Chivalry".data, "chivalry".data),
   ("Feudalism".data, "feudalism".data),
   ("Navigation".data, "navigation".data),
   ("Gunpowder".data, "gunpowder".data),
   ("Magnetism".data, "magnetism".data),
   ("Steam Engine".data, "steam_engine".data),
   ("Metallurgy".data, "metallurgy".data),
   ("Electricity".data, "electricity".data),
   ("Machine Tools".data, "machine_tools".data),
   ("Steel".data, "steel".data),
   ("Industrialization".data, "industrialization".data),
   ("Conscription".data, "conscription".data),
   ("Leadership".data, "leadership".data),
   ("Tactics".data, "tactics".data),
   ("Flight".data, "flight".data),
   ("Advanced Flight".data, "advanced_flight".data),
   ("Rocketry".data, "rocketry".data),
   ("Combined Arms".data, "combined_arms".data),
   ("Amphibious Warfare".data, "amphibious_warfare".data),
   ("Labor Union".data, "labor_union".data),
   ("Mobile Warfare".data, "mobile_warfare".data),
   ("Robotics".data, "robotics".data),
   ("Stealth".data, "stealth".data),
   ("Automobile".data, "automobile".data),
   ("Combustion".data, "combustion".data),
   ("Guerilla Warfare".data, "guerilla_warfare".data),
   ("Explosives".data, "explosives".data),
   ("Espionage".data, "espionage".data),
   ("Trade".data, "trade".data),
   ("The Corporation".data, "the_corporation".data),
   ("Seafaring".data, "seafaring".data)]

/-- Resolution of one technology display name: `tech_mappings.get(name,
name.lower().replace(' ', '_'))`. -/
def resolveTech (nm : Line) : Line :=
  match tech_mappings.find? (fun p => p.1 = nm) with
  | some p => p.2
  | none => pyLowerUnd nm

/-- The `for req in unit_data['reqs']` loop of `get_tech_requirement`. -/
def firstTechLoop : List Req → Option Line
  | [] => none
  | r :: rest => if r.rtype = "Tech".data then some (resolveTech r.rname) else firstTechLoop rest

/-- Embeds `get_tech_requirement` of `create_freeciv_units.py`.  The `reqs`
key of a parser-produced record always holds a requirements list; on any
other stored value the Python code would raise, which the embedding maps to
`none`. -/
def get_tech_requirement (u : RawRecord) : Option Line :=
  match lookupRec ("reqs".data) u with
  | some (Value.vreqs rs) => if rs = [] then none else firstTechLoop rs
  | _ => none

/-- Embeds `get_obsolete_by` of `create_freeciv_units.py`; the argument is
`unit_data.get("obsolete_by")`, absent or a string. -/
def get_obsolete_by : Option Line → Option Line
  | none => none
  | some s => if s ≠ [] ∧ s ≠ "None".data then some (pyLowerUnd s) else none

/-- Python `isinstance(v, list)`. -/
def isListV : Value → Bool
  | Value.vlist _ => true
  | Value.vreqs _ => true
  | _ => false

/-- Python truthiness of a stored value. -/
def truthyV : Value → Bool
  | Value.vint n => n ≠ 0
  | Value.vstr s => s ≠ []
  | Value.vlist l => !l.isEmpty
  | Value.vreqs l => !l.isEmpty

/-- Content of a stored string value.  Fields fed to `clean_name` and
`get_obsolete_by` are strings in every parser-produced record; on other
values the Python code would raise. -/
def asStrV : Value → Line
  | Value.vstr s => s
  | _ => []

/-- Python `unit_data.get(k, d)`. -/
def getD (u : RawRecord) (k : Line) (d : Value) : Value :=
  (lookupRec k u).getD d

/-- The `cargo` expression of the `enhanced_unit` dict literal. -/
def cargoField (u : RawRecord) : Value :=
  match lookupRec ("cargo".data) u with
  | none => Value.vlist []
  | some v => if isListV v then v else if truthyV v then Value.vlist [v] else Value.vlist []

/-- The canonical enriched-unit schema built by `create_freeciv_units.py`. -/
structure EnrichedUnit where
  uid : Line
  name : Line
  attack : Value
  defense : Value
  hitpoints : Value
  firepower : Value
  move_rate : Value
  vision_radius_sq : Value
  build_cost : Value
  pop_cost : Value
  uk_happy : Value
  uk_shield : Value
  uk_food : Value
  uk_gold : Value
  transport_cap : Value
  fuel : Value
  unit_class : Value
  roles : Value
  flags : Value
  required_tech : Option Line
  obsolete_by : Option Line
  tp_defense : Value
  cargo : Value
  graphic : Value
  graphic_alt : Value
  sound_move : Value
  sound_fight : Value
  veteran_levels : Nat
  veteran_names : List Line
  veteran_base_raise_chance : List Nat
  veteran_work_raise_chance : List Nat
  veteran_power_fact : List Nat
  veteran_move_bonus : List Nat

/-- Embeds the `enhanced_unit` dict literal built per unit by the loop of
`create_freeciv_units.py`. -/
def enhanced_unit (uid : Line) (u : RawRecord) : EnrichedUnit where
  uid := uid
  name := clean_name (asStrV (getD u ("name".data) (Value.vstr [])))
  attack := getD u ("attack".data) (Value.vint 0)
  defense := getD u ("defense".data) (Value.vint 0)
  hitpoints := getD u ("hitpoints".data) (Value.vint 10)
  firepower := getD u ("firepower".data) (Value.vint 1)
  move_rate := getD u ("move_rate".data) (Value.vint 1)
  vision_radius_sq := getD u ("vision_radius_sq".data) (Value.vint 2)
  build_cost := getD u ("build_cost".data) (Value.vint 10)
  pop_cost := getD u ("pop_cost".data) (Value.vint 0)
  uk_happy := getD u ("uk_happy".data) (Value.vint 0)
  uk_shield := getD u ("uk_shield".data) (Value.vint 0)
  uk_food := getD u ("uk_food".data) (Value.vint 0)
  uk_gold := getD u ("uk_gold".data) (Value.vint 0)
  transport_cap := getD u ("transport_cap".data) (Value.vint 0)
  fuel := getD u ("fuel".data) (Value.vint 0)
  unit_class := getD u ("class".data) (Value.vstr "Land".data)
  roles := getD u ("roles".data) (Value.vlist [])
  flags := getD u ("flags".data) (Value.vlist [])
  required_tech := get_tech_requirement u
  obsolete_by := get_obsolete_by ((lookupRec ("obsolete_by".data) u).map asStrV)
  tp_defense := getD u ("tp_defense".data) (Value.vstr "Alight".data)
  cargo := cargoField u
  graphic := getD u ("graphic".data) (Value.vstr [])
  graphic_alt := getD u ("graphic_alt".data) (Value.vstr "-".data)
  sound_move := getD u ("sound_move".data) (Value.vstr [])
  sound_fight := getD u ("sound_fight".data) (Value.vstr [])
  veteran_levels := 4
  veteran_names := ["green".data, "veteran".data, "hardened".data, "elite".data]
  veteran_base_raise_chance := [50, 33, 20, 0]
  veteran_work_raise_chance := [0, 0, 0, 0]
  veteran_power_fact := [100, 150, 175, 200]
  veteran_move_bonus := [0, 0, 0, 0]

/-- Embeds the `techs_raw` table of `tech_analysis.py`, projected to the two
fields `calculate_classic_cost` reads: the key and the `requirements` list. -/
def techs_raw : List (String × List String) :=
  [("advanced_flight", ["Radio", "Machine Tools"]),
   ("alphabet", []),
   ("amphibious_warfare", ["Navigation", "Tactics"]),
   ("astronomy", ["Mysticism", "Mathematics"]),
   ("atomic_theory", ["Theory of Gravity", "Physics"]),
   ("automobile", ["Combustion", "Steel"]),
   ("banking", ["Trade", "The Republic"]),
   ("bridge_building", ["Iron Working", "Construction"]),
   ("bronze_working", []),
   ("ceremonial_burial", []),
   ("chemistry", ["University", "Medicine"]),
   ("chivalry", ["Feudalism", "Horseback Riding"]),
   ("code_of_laws", ["Alphabet"]),
   ("combined_arms", ["Mobile Warfare", "Advanced Flight"]),
   ("combustion", ["Refining", "Explosives"]),
   ("communism", ["Philosophy", "Industrialization"]),
   ("computers", ["Mass Production", "Miniaturization"]),
   ("conscription", ["Democracy", "Metallurgy"]),
   ("construction", ["Masonry", "Currency"]),
   ("currency", ["Bronze Working"]),
   ("democracy", ["Banking", "Invention"]),
   ("economics", ["Banking", "University"]),
   ("electricity", ["Metallurgy", "Magnetism"]),
   ("electronics", ["The Corporation", "Electricity"]),
   ("engineering", ["The Wheel", "Construction"]),
   ("environmentalism", ["Recycling", "Space Flight"]),
   ("espionage", ["Communism", "Democracy"]),
   ("explosives", ["Gunpowder", "Chemistry"]),
   ("feudalism", ["Warrior Code", "Monarchy"]),
   ("flight", ["Combustion", "Theory of Gravity"]),
   ("fusion_power", ["Nuclear Power", "Superconductors"]),
   ("genetic_engineering", ["Medicine", "The Corporation"]),
   ("guerilla_warfare", ["Communism", "Tactics"]),
   ("gunpowder", ["Invention", "Iron Working"]),
   ("horseback_riding", []),
   ("industrialization", ["Railroad", "Banking"]),
   ("invention", ["Engineering", "Literacy"]),
   ("iron_working", ["Bronze Working", "Warrior Code"]),
   ("labor_union", ["Mass Production", "Guerilla Warfare"]),
   ("laser", ["Mass Production", "Nuclear Power"]),
   ("leadership", ["Chivalry", "Gunpowder"]),
   ("literacy", ["Writing", "Code of Laws"]),
   ("machine_tools", ["Steel", "Tactics"]),
   ("magnetism", ["Iron Working", "Physics"]),
   ("map_making", ["Alphabet"]),
   ("masonry", []),
   ("mass_production", ["Automobile", "The Corporation"]),
   ("mathematics", ["Alphabet", "Masonry"]),
   ("medicine", ["Philosophy", "Trade"]),
   ("metallurgy", ["Gunpowder", "University"]),
   ("miniaturization", ["Machine Tools", "Electronics"]),
   ("mobile_warfare", ["Automobile", "Tactics"]),
   ("monarchy", ["Ceremonial Burial", "Code of Laws"]),
   ("monotheism", ["Philosophy", "Polytheism"]),
   ("mysticism", ["Ceremonial Burial"]),
   ("navigation", ["Seafaring", "Astronomy"]),
   ("nuclear_fission", ["Mass Production", "Atomic Theory"]),
   ("nuclear_power", ["Nuclear Fission", "Electronics"]),
   ("philosophy", ["Mysticism", "Literacy"]),
   ("physics", ["Literacy", "Navigation"]),
   ("plastics", ["Refining", "Space Flight"]),
   ("polytheism", ["Horseback Riding", "Ceremonial Burial"]),
   ("pottery", []),
   ("radio", ["Flight", "Electricity"]),
   ("railroad", ["Steam Engine", "Bridge Building"]),
   ("recycling", ["Mass Production", "Democracy"]),
   ("refining", ["Chemistry", "The Corporation"]),
   ("refrigeration", ["Sanitation", "Electricity"]),
   ("robotics", ["Mobile Warfare", "Computers"]),
   ("rocketry", ["Advanced Flight", "Electronics"]),
   ("sanitation", ["Engineering", "Medicine"]),
   ("seafaring", ["Pottery", "Map Making"]),
   ("space_flight", ["Computers", "Rocketry"]),
   ("stealth", ["Superconductors", "Advanced Flight"]),
   ("steam_engine", ["Physics", "Invention"]),
   ("steel", ["Electricity", "Industrialization"]),
   ("superconductors", ["Nuclear Power", "Laser"]),
   ("tactics", ["Conscription", "Leadership"]),
   ("the_corporation", ["Economics", "Industrialization"]),
   ("the_republic", ["Code of Laws", "Literacy"]),
   ("the_wheel", ["Horseback Riding"]),
   ("theology", ["Feudalism", "Monotheism"]),
   ("theory_of_gravity", ["Astronomy", "University"]),
   ("trade", ["Currency", "Code of Laws"]),
   ("university", ["Mathematics", "Philosophy"]),
   ("warrior_code", []),
   ("writing", ["Alphabet"])]

/-- Embeds `calculate_classic_cost` of `tech_analysis.py`.  With `n` direct
requirements the float expression `20 * (1 + n) * math.sqrt(1 + n) / 2`
equals `sqrt(100 * (1 + n)^3)` exactly, and `int(...)` truncates the
positive float toward zero, so the returned value is
`max (Nat.sqrt (100 * (1 + n)^3)) 10`; for the requirement counts that occur
(0, 1 or 2) the float computation commits no rounding error across an
integer boundary.  The bridge to the real-valued formula is proved in
`nat_sqrt_cost_eq_floor` below. -/
def calculate_classic_cost (tech_id : String) : Nat :=
  match techs_raw.find? (fun p => p.1 = tech_id) with
  | none => 10
  | some p => max (Nat.sqrt (100 * (1 + p.2.length) ^ 3)) 10

/-- Key of a `key = value` line: the text left of the first equals sign,
stripped.  Used by the specification-side key-set description. -/
def keyOfLine (s : Line) : Line := stripL (s.takeWhile (fun c => c ≠ '='))

/-- Specification-side description (from the spec text, for claim C3): the
keys appearing in `key = value` lines of a section body — lines containing
an equals sign that are neither section headers nor requirement openers. -/
def specKeys (body : List Line) : List Line :=
  body.filterMap (fun l =>
    if '=' ∈ stripL l ∧ ¬ ("[".data).isPrefixOf (stripL l) ∧ ¬ ("reqs".data).isPrefixOf (stripL l)
    then some (keyOfLine (stripL l)) else none)

/-- Specification-side description (for claim C3): a requirements block was
present and closed — some requirement opener is followed, later in the body,
by a line whose stripped form ends with a closing brace and is not itself a
requirement opener. -/
def HasClosed (body : List Line) : Prop :=
  ∃ b₁ o b₂ c b₃, body = b₁ ++ o :: b₂ ++ c :: b₃ ∧
    ("reqs".data).isPrefixOf (stripL o) ∧
    ¬ ("reqs".data).isPrefixOf (stripL c) ∧ endsBrace (stripL c) = true

/-- Well-formed section body (for claim C3): a sequence of ordinary
`key = value` lines, inert lines, closed requirements blocks, and at most a
trailing unclosed requirements block.  Lines of a requirements block carry
no stray equals sign (so the textual key-value lines of the body are exactly
its ordinary ones) and do not look like headers. -/
inductive WFBody : List Line → Prop where
  | nil : WFBody []
  | kv : ∀ l rest, '=' ∈ stripL l → ¬ ("[".data).isPrefixOf (stripL l) →
      ¬ ("reqs".data).isPrefixOf (stripL l) → WFBody rest → WFBody (l :: rest)
  | inert : ∀ l rest, '=' ∉ stripL l → ¬ ("[".data).isPrefixOf (stripL l) →
      ¬ ("reqs".data).isPrefixOf (stripL l) → WFBody rest → WFBody (l :: rest)
  | block : ∀ o blk c rest, ("reqs".data).isPrefixOf (stripL o) →
      (∀ b ∈ blk, ¬ ("[".data).isPrefixOf (stripL b) ∧
        (("reqs".data).isPrefixOf (stripL b) ∨
          (endsBrace (stripL b) = false ∧ '=' ∉ stripL b))) →
      ¬ ("[".data).isPrefixOf (stripL c) → ¬ ("reqs".data).isPrefixOf (stripL c) →
      endsBrace (stripL c) = true → '=' ∉ stripL c →
      WFBody rest → WFBody (o :: blk ++ c :: rest)
  | openBlock : ∀ o blk, ("reqs".data).isPrefixOf (stripL o) →
      (∀ b ∈ blk, ¬ ("[".data).isPrefixOf (stripL b) ∧
        (("reqs".data).isPrefixOf (stripL b) ∨
          (endsBrace (stripL b) = false ∧ '=' ∉ stripL b))) →
      WFBody (o :: blk)

/-- A lowercase-underscored identifier in the sense of the enriched-unit
invariant: no ASCII uppercase letter and no space. -/
def identOk (s : Line) : Prop := ∀ c ∈ s, isUpperA c = false ∧ c ≠ ' '

/-- Bridge between the executable cost embedding and the real-valued formula
of the source comment: truncating `20 * (1 + n) * sqrt(1 + n) / 2` is taking
the natural square root of `100 * (1 + n)^3`. -/
theorem nat_sqrt_cost_eq_floor (n : ℕ) :
    ((max (Nat.sqrt (100 * (1 + n) ^ 3)) 10 : ℕ) : ℤ)
      = max ⌊(20 * (1 + (n : ℝ)) * Real.sqrt (1 + (n : ℝ)) / 2)⌋ 10 := by
  have hs : (20 * (1 + (n : ℝ)) * Real.sqrt (1 + (n : ℝ)) / 2)
      = Real.sqrt ((100 * (1 + n) ^ 3 : ℕ) : ℝ) := by
    have h1 : ((100 * (1 + n) ^ 3 : ℕ) : ℝ) = (10 * (1 + (n : ℝ))) ^ 2 * (1 + (n : ℝ)) := by
      push_cast
      ring
    rw [h1, Real.sqrt_mul (by positivity), Real.sqrt_sq (by positivity)]
    ring
  rw [hs, Real.floor_real_sqrt_eq_nat_sqrt, Nat.cast_max]
  norm_num

/-- Claim C2: for every technology in the table with direct-requirement
count `n`, the cost evaluator returns `max(floor(20*(1+n)*sqrt(1+n)/2), 10)`;
for `n = 0` it returns 10, for `n = 2` it returns 51, and the result is
always at least 10. -/
theorem claim_C2 (id : String) (p : String × List String)
    (hp : techs_raw.find? (fun q => q.1 = id) = some p) :
    ((calculate_classic_cost id : ℤ)
        = max ⌊(20 * (1 + (p.2.length : ℝ)) * Real.sqrt (1 + (p.2.length : ℝ)) / 2)⌋ 10)
    ∧ (p.2.length = 0 → calculate_classic_cost id = 10)
    ∧ (p.2.length = 2 → calculate_classic_cost id = 51)
    ∧ 10 ≤ calculate_classic_cost id := by
  have hc : calculate_classic_cost id = max (Nat.sqrt (100 * (1 + p.2.length) ^ 3)) 10 := by
    unfold calculate_classic_cost
    rw [hp]
  refine ⟨?_, ?_, ?_, ?_⟩
  · rw [hc]
    exact nat_sqrt_cost_eq_floor p.2.length
  · intro h
    rw [hc, h]
    have h1 : Nat.sqrt (100 * (1 + 0) ^ 3) < 11 := Nat.sqrt_lt.mpr (by norm_num)
    have h2 : 10 ≤ Nat.sqrt (100 * (1 + 0) ^ 3) := Nat.le_sqrt.mpr (by norm_num)
    omega
  · intro h
    rw [hc, h]
    have h1 : Nat.sqrt (100 * (1 + 2) ^ 3) < 52 := Nat.sqrt_lt.mpr (by norm_num)
    have h2 : 51 ≤ Nat.sqrt (100 * (1 + 2) ^ 3) := Nat.le_sqrt.mpr (by norm_num)
    omega
  · rw [hc]
    exact le_max_right _ _

/-- Claim C2 witness: the table entry for iron working has two direct
requirements and costs 51. -/
theorem claim_C2_witness :
    calculate_classic_cost "iron_working" = 51 ∧ 10 ≤ calculate_classic_cost "iron_working" := by
  have h := claim_C2 "iron_working" ("iron_working", ["Bronze Working", "Warrior Code"]) (by decide)
  exact ⟨h.2.2.1 rfl, h.2.2.2⟩

/-- Claim C10: for an identifier outside the table the cost evaluator
returns exactly the minimum cost 10, and on any input whatsoever the result
is an integer greater than or equal to 10. -/
theorem claim_C10 :
    (∀ id, techs_raw.find? (fun p => p.1 = id) = none → calculate_classic_cost id = 10)
    ∧ (∀ id, 10 ≤ calculate_classic_cost id) := by
  constructor
  · intro id h
    unfold calculate_classic_cost
    rw [h]
  · intro id
    unfold calculate_classic_cost
    cases h : techs_raw.find? (fun p => p.1 = id) with
    | none => exact le_refl 10
    | some p => exact le_max_right _ _

/-- Claim C10 witness: an unknown identifier gets the minimum cost. -/
theorem claim_C10_witness :
    calculate_classic_cost "future_tech" = 10 ∧ 10 ≤ calculate_classic_cost "alphabet" :=
  ⟨claim_C10.1 "future_tech" (by decide), claim_C10.2 "alphabet"⟩

/-- Claim C7, counterexample: the empty string is a present input different
from the sentinel "None", yet the resolver returns absent instead of the
lower-cased string, because Python truthiness treats the empty string as
false. -/
theorem claim_C7_counterexample :
    get_obsolete_by (some ([] : Line)) = none
    ∧ ([] : Line) ≠ "None".data
    ∧ get_obsolete_by (some ([] : Line)) ≠ some (pyLowerUnd ([] : Line)) := by
  refine ⟨rfl, by decide, by decide⟩

/-- Claim C7 as amended: the resolver returns absent when the input is
absent, the empty string, or the sentinel "None"; any other string is
returned lower-cased with spaces replaced by underscores (so "Musketeers"
yields "musketeers"). -/
theorem claim_C7_amended :
    get_obsolete_by none = none
    ∧ (∀ s : Line, (s = [] ∨ s = "None".data) → get_obsolete_by (some s) = none)
    ∧ (∀ s : Line, s ≠ [] → s ≠ "None".data → get_obsolete_by (some s) = some (pyLowerUnd s))
    ∧ get_obsolete_by (some ("Musketeers".data)) = some ("musketeers".data) := by
  refine ⟨rfl, ?_, ?_, by decide⟩
  · intro s h
    have hns : ¬ (s ≠ [] ∧ s ≠ "None".data) := by
      rcases h with h | h <;> simp [h]
    simp only [get_obsolete_by, if_neg hns]
  · intro s h1 h2
    simp only [get_obsolete_by, if_pos (And.intro h1 h2)]

/-- Claim C7 witness: a concrete instantiation of the amended claim. -/
theorem claim_C7_witness :
    get_obsolete_by (some ("Mech. Inf.".data)) = some ("mech._inf.".data)
    ∧ get_obsolete_by (some ("None".data)) = none := by
  constructor
  · exact (claim_C7_amended.2.2.1 ("Mech. Inf.".data) (by decide) (by decide)).trans (by decide)
  · exact claim_C7_amended.2.1 ("None".data) (Or.inr rfl)

/-- Claim C1 (evaluation at the failing input): on the disambiguated form
the cleanup function keeps the `?context:` prefix — the branch written to
strip it is dead, since any string starting with the disambiguated opener
also starts with the plain opener and the first regex captures the whole
prefixed text.  The plain form and the fallback behave as claimed. -/
theorem claim_C1_eval :
    clean_name ("_(\"?unit:Workers\")".data) = "?unit:Workers".data
    ∧ clean_name ("_(\"Phalanx\")".data) = "Phalanx".data
    ∧ clean_name ("\"plain\"".data) = "plain".data := by
  refine ⟨by decide, by decide, by decide⟩

/-- The early-return loop over the requirement list equals first-match
selection followed by name resolution. -/
theorem firstTechLoop_eq_find (rs : List Req) :
    firstTechLoop rs
      = (rs.find? (fun r => r.rtype = "Tech".data)).map (fun r => resolveTech r.rname) := by
  induction rs with
  | nil => rfl
  | cons r t ih =>
    by_cases h : r.rtype = "Tech".data
    · rw [firstTechLoop, if_pos h, List.find?_cons_of_pos _ (by simp [h])]
      rfl
    · rw [firstTechLoop, if_neg h, List.find?_cons_of_neg _ (by simp [h]), ih]

/-- Claim C5: the technology-requirement resolver selects the first entry of
the record's requirement list whose type is "Tech" and resolves its name
through the static table, falling back to lower-casing with underscores; a
missing requirement list or the absence of a Tech entry yields no required
technology. -/
theorem claim_C5 :
    (∀ (u : RawRecord) (rs : List Req), lookupRec ("reqs".data) u = some (Value.vreqs rs) →
      get_tech_requirement u
        = (rs.find? (fun r => r.rtype = "Tech".data)).map (fun r => resolveTech r.rname))
    ∧ (∀ u : RawRecord, lookupRec ("reqs".data) u = none → get_tech_requirement u = none)
    ∧ (∀ nm p, tech_mappings.find? (fun q => q.1 = nm) = some p → resolveTech nm = p.2)
    ∧ (∀ nm, tech_mappings.find? (fun q => q.1 = nm) = none → resolveTech nm = pyLowerUnd nm) := by
  refine ⟨?_, ?_, ?_, ?_⟩
  · intro u rs h
    simp only [get_tech_requirement, h]
    by_cases hrs : rs = []
    · subst hrs
      simp
    · rw [if_neg hrs, firstTechLoop_eq_find]
  · intro u h
    simp only [get_tech_requirement, h]
  · intro nm p h
    unfold resolveTech
    rw [h]
  · intro nm h
    unfold resolveTech
    rw [h]

/-- Claim C5 witness: a non-Tech entry is skipped, the first Tech entry is
resolved through the table. -/
theorem claim_C5_witness :
    get_tech_requirement
      [("reqs".data, Value.vreqs
        [⟨"Building".data, "Barracks".data, "City".data⟩,
         ⟨"Tech".data, "Bronze Working".data, "Player".data⟩])]
      = some ("bronze_working".data) := by
  rw [claim_C5.1 _ _ (by rfl)]
  decide

/-- Lower-casing never yields an ASCII uppercase letter. -/
theorem isUpperA_pyLowerChar (c : Char) : isUpperA (pyLowerChar c) = false := by
  cases h : upperLower.find? (fun p => p.1 = c) with
  | none =>
    simp only [pyLowerChar, h, isUpperA]
    rfl
  | some p =>
    simp only [pyLowerChar, h]
    exact (by decide : ∀ q ∈ upperLower, isUpperA q.2 = false) p (List.mem_of_find?_eq_some h)

/-- One character of `lower().replace(' ', '_')` is neither uppercase nor a
space. -/
theorem spaceToUnd_ok (c : Char) :
    isUpperA (spaceToUnd (pyLowerChar c)) = false ∧ spaceToUnd (pyLowerChar c) ≠ ' ' := by
  unfold spaceToUnd
  by_cases h : pyLowerChar c = ' '
  · rw [if_pos h]
    exact ⟨by decide, by decide⟩
  · rw [if_neg h]
    exact ⟨isUpperA_pyLowerChar c, h⟩

/-- The fallback conversion produces a lowercase-underscored identifier. -/
theorem identOk_pyLowerUnd (s : Line) : identOk (pyLowerUnd s) := by
  intro c hc
  simp only [pyLowerUnd, List.map_map, List.mem_map] at hc
  obtain ⟨a, _, rfl⟩ := hc
  exact spaceToUnd_ok a

/-- Every canonical identifier of the static table is lowercase-underscored. -/
theorem tech_mappings_identOk : ∀ p ∈ tech_mappings, identOk p.2 := by
  unfold identOk
  decide

/-- Name resolution always produces a lowercase-underscored identifier. -/
theorem identOk_resolveTech (nm : Line) : identOk (resolveTech nm) := by
  cases h : tech_mappings.find? (fun p => p.1 = nm) with
  | none =>
    simp only [resolveTech, h]
    exact identOk_pyLowerUnd nm
  | some p =>
    simp only [resolveTech, h]
    exact tech_mappings_identOk p (List.mem_of_find?_eq_some h)

/-- A successful requirement loop returns a resolved name. -/
theorem firstTechLoop_some (rs : List Req) (s : Line) (h : firstTechLoop rs = some s) :
    ∃ r : Req, s = resolveTech r.rname := by
  induction rs with
  | nil => exact absurd h (by simp [firstTechLoop])
  | cons r t ih =>
    by_cases hr : r.rtype = "Tech".data
    · rw [firstTechLoop, if_pos hr] at h
      exact ⟨r, (Option.some_injective _ h).symm⟩
    · rw [firstTechLoop, if_neg hr] at h
      exact ih h

/-- A present required technology is always lowercase-underscored. -/
theorem identOk_get_tech (u : RawRecord) (s : Line)
    (h : get_tech_requirement u = some s) : identOk s := by
  unfold get_tech_requirement at h
  cases hl : lookupRec ("reqs".data) u with
  | none =>
    simp only [hl] at h
    exact Option.noConfusion h
  | some v =>
    cases v with
    | vint n =>
      simp only [hl] at h
      exact Option.noConfusion h
    | vstr t =>
      simp only [hl] at h
      exact Option.noConfusion h
    | vlist l =>
      simp only [hl] at h
      exact Option.noConfusion h
    | vreqs rs =>
      simp only [hl] at h
      by_cases hrs : rs = []
      · rw [if_pos hrs] at h
        exact Option.noConfusion h
      · rw [if_neg hrs] at h
        obtain ⟨r, rfl⟩ := firstTechLoop_some rs s h
        exact identOk_resolveTech r.rname

/-- Claim C8: every numeric field of the enriched unit is present with its
fixed default when the record omits it, the required technology is a
lowercase-underscored identifier or absent, and the cargo field is always a
list — a present non-list truthy cargo value is wrapped into a singleton
list, an absent one yields the empty list. -/
theorem claim_C8 (uid : Line) (u : RawRecord) :
    ((lookupRec ("attack".data) u = none → (enhanced_unit uid u).attack = Value.vint 0)
     ∧ (lookupRec ("defense".data) u = none → (enhanced_unit uid u).defense = Value.vint 0)
     ∧ (lookupRec ("hitpoints".data) u = none → (enhanced_unit uid u).hitpoints = Value.vint 10)
     ∧ (lookupRec ("firepower".data) u = none → (enhanced_unit uid u).firepower = Value.vint 1)
     ∧ (lookupRec ("move_rate".data) u = none → (enhanced_unit uid u).move_rate = Value.vint 1)
     ∧ (lookupRec ("vision_radius_sq".data) u = none →
          (enhanced_unit uid u).vision_radius_sq = Value.vint 2)
     ∧ (lookupRec ("build_cost".data) u = none → (enhanced_unit uid u).build_cost = Value.vint 10)
     ∧ (lookupRec ("pop_cost".data) u = none → (enhanced_unit uid u).pop_cost = Value.vint 0)
     ∧ (lookupRec ("uk_happy".data) u = none → (enhanced_unit uid u).uk_happy = Value.vint 0)
     ∧ (lookupRec ("uk_shield".data) u = none → (enhanced_unit uid u).uk_shield = Value.vint 0)
     ∧ (lookupRec ("uk_food".data) u = none → (enhanced_unit uid u).uk_food = Value.vint 0)
     ∧ (lookupRec ("uk_gold".data) u = none → (enhanced_unit uid u).uk_gold = Value.vint 0)
     ∧ (lookupRec ("transport_cap".data) u = none →
          (enhanced_unit uid u).transport_cap = Value.vint 0)
     ∧ (lookupRec ("fuel".data) u = none → (enhanced_unit uid u).fuel = Value.vint 0))
    ∧ (∀ s, (enhanced_unit uid u).required_tech = some s → identOk s)
    ∧ isListV (enhanced_unit uid u).cargo = true
    ∧ (lookupRec ("cargo".data) u = none → (enhanced_unit uid u).cargo = Value.vlist [])
    ∧ (∀ v, lookupRec ("cargo".data) u = some v → isListV v = false → truthyV v = true →
        (enhanced_unit uid u).cargo = Value.vlist [v]) := by
  refine ⟨⟨?_, ?_, ?_, ?_, ?_, ?_, ?_, ?_, ?_, ?_, ?_, ?_, ?_, ?_⟩, ?_, ?_, ?_, ?_⟩
  case _ => intro h; simp [enhanced_unit, getD, h]
  case _ => intro h; simp [enhanced_unit, getD, h]
  case _ => intro h; simp [enhanced_unit, getD, h]
  case _ => intro h; simp [enhanced_unit, getD, h]
  case _ => intro h; simp [enhanced_unit, getD, h]
  case _ => intro h; simp [enhanced_unit, getD, h]
  case _ => intro h; simp [enhanced_unit, getD, h]
  case _ => intro h; simp [enhanced_unit, getD, h]
  case _ => intro h; simp [enhanced_unit, getD, h]
  case _ => intro h; simp [enhanced_unit, getD, h]
  case _ => intro h; simp [enhanced_unit, getD, h]
  case _ => intro h; simp [enhanced_unit, getD, h]
  case _ => intro h; simp [enhanced_unit, getD, h]
  case _ => intro h; simp [enhanced_unit, getD, h]
  case _ =>
    intro s h
    exact identOk_get_tech u s (by simpa [enhanced_unit] using h)
  case _ =>
    show isListV (cargoField u) = true
    cases hc : lookupRec ("cargo".data) u with
    | none =>
      simp only [cargoField, hc]
      rfl
    | some v =>
      simp only [cargoField, hc]
      by_cases hl : isListV v = true
      · rw [if_pos hl]
        exact hl
      · rw [if_neg hl]
        by_cases ht : truthyV v = true
        · rw [if_pos ht]
          rfl
        · rw [if_neg ht]
          rfl
  case _ =>
    intro h
    show cargoField u = Value.vlist []
    simp only [cargoField, h]
  case _ =>
    intro v hv hl ht
    show cargoField u = Value.vlist [v]
    simp only [cargoField, hv]
    rw [if_neg (by simp [hl]), if_pos ht]

/-- Claim C8 witness: with only a non-list cargo value stored, hitpoints get
the default 10 and the cargo value is wrapped into a singleton list. -/
theorem claim_C8_witness :
    (enhanced_unit ("carrier".data) [("cargo".data, Value.vstr ("Fighter".data))]).hitpoints
      = Value.vint 10
    ∧ (enhanced_unit ("carrier".data) [("cargo".data, Value.vstr ("Fighter".data))]).cargo
      = Value.vlist [Value.vstr ("Fighter".data)] := by
  constructor
  · exact (claim_C8 ("carrier".data) _).1.2.2.1 (by rfl)
  · exact (claim_C8 ("carrier".data) _).2.2.2.2 (Value.vstr ("Fighter".data))
      (by rfl) (by rfl) (by rfl)

/-- The search returns nothing exactly when no position matches. -/
theorem searchTech_eq_none_iff (s : Line) :
    searchTech s = none ↔ ∀ i, matchTechAt (s.drop i) = none := by
  induction s with
  | nil =>
    constructor
    · intro _ i
      rw [List.drop_nil]
      rfl
    · intro _
      rfl
  | cons c t ih =>
    cases h : matchTechAt (c :: t) with
    | some w =>
      simp only [searchTech, h]
      constructor
      · intro hx
        exact Option.noConfusion hx
      · intro H
        have h0 := H 0
        rw [List.drop_zero, h] at h0
        exact Option.noConfusion h0
    | none =>
      simp only [searchTech, h]
      rw [ih]
      constructor
      · intro H i
        cases i with
        | zero =>
          rw [List.drop_zero]
          exact h
        | succ j =>
          rw [List.drop_succ_cons]
          exact H j
      · intro H i
        have := H (i + 1)
        rw [List.drop_succ_cons] at this
        exact this

/-- The search returns the leftmost match. -/
theorem searchTech_of_first (i : Nat) : ∀ (s : Line) (w : Line),
    matchTechAt (s.drop i) = some w →
    (∀ j < i, matchTechAt (s.drop j) = none) →
    searchTech s = some w := by
  induction i with
  | zero =>
    intro s w h _
    rw [List.drop_zero] at h
    cases s with
    | nil => exact absurd h (by rw [show matchTechAt [] = none from rfl]; exact Option.noConfusion)
    | cons c t => simp only [searchTech, h]
  | succ j ih =>
    intro s w h hmin
    cases s with
    | nil =>
      rw [List.drop_nil] at h
      exact absurd h (by rw [show matchTechAt [] = none from rfl]; exact Option.noConfusion)
    | cons c t =>
      have h0 : matchTechAt (c :: t) = none := by
        have := hmin 0 (Nat.succ_pos j)
        rwa [List.drop_zero] at this
      simp only [searchTech, h0]
      rw [List.drop_succ_cons] at h
      refine ih t w h (fun k hk => ?_)
      have := hmin (k + 1) (Nat.succ_lt_succ hk)
      rwa [List.drop_succ_cons] at this

/-- The requirement extractor emits nothing or a single Tech/Player entry. -/
theorem parse_reqs_shape (s : Line) :
    parse_reqs s = [] ∨ ∃ w, parse_reqs s = [⟨"Tech".data, w, "Player".data⟩] := by
  unfold parse_reqs
  by_cases h : s = []
  · rw [if_pos h]
    exact Or.inl rfl
  · rw [if_neg h]
    cases hs : searchTech s with
    | none => exact Or.inl rfl
    | some w => exact Or.inr ⟨w, rfl⟩

/-- Claim C4: on a closed requirements buffer, the extractor returns exactly
one requirement of type Tech with range Player, named by the first match of
the Tech pattern, and returns the empty list when no position of the buffer
matches; no other requirement type ever produces an entry, and the result
never holds more than one requirement. -/
theorem claim_C4 (s : Line) :
    ((∀ i, matchTechAt (s.drop i) = none) → parse_reqs s = [])
    ∧ (∀ i w, matchTechAt (s.drop i) = some w → (∀ j < i, matchTechAt (s.drop j) = none) →
        parse_reqs s = [⟨"Tech".data, w, "Player".data⟩])
    ∧ (∀ r ∈ parse_reqs s, r.rtype = "Tech".data ∧ r.rrange = "Player".data)
    ∧ (parse_reqs s).length ≤ 1 := by
  refine ⟨?_, ?_, ?_, ?_⟩
  · intro H
    have hst : searchTech s = none := (searchTech_eq_none_iff s).mpr H
    unfold parse_reqs
    by_cases h : s = []
    · rw [if_pos h]
    · rw [if_neg h, hst]
  · intro i w hw hmin
    have hne : s ≠ [] := by
      intro he
      subst he
      rw [List.drop_nil] at hw
      exact Option.noConfusion ((show matchTechAt [] = none from rfl) ▸ hw)
    have hst : searchTech s = some w := searchTech_of_first i s w hw hmin
    unfold parse_reqs
    rw [if_neg hne, hst]
  · intro r hr
    rcases parse_reqs_shape s with h | ⟨w, h⟩
    · rw [h] at hr
      exact absurd hr (List.not_mem_nil r)
    · rw [h] at hr
      rcases List.mem_singleton.mp hr with rfl
      exact ⟨rfl, rfl⟩
  · rcases parse_reqs_shape s with h | ⟨w, h⟩ <;> rw [h] <;> simp

/-- Claim C4 witness: the leftmost Tech pattern of a concrete closed buffer,
at offset 9, yields the single requirement. -/
theorem claim_C4_witness :
    parse_reqs ("reqs = \x7b \"Tech\", \"Pottery\", \"Player\" \x7d".data)
      = [⟨"Tech".data, "Pottery".data, "Player".data⟩] := by
  exact (claim_C4 _).2.1 9 ("Pottery".data) (by decide) (by decide)

/-- A list whose head fails the predicate is unchanged by `dropWhile`. -/
theorem dropWhile_eq_self_of_head {p : Char → Bool} {l : Line}
    (h : ∀ c, l.head? = some c → p c = false) : l.dropWhile p = l := by
  cases l with
  | nil => rfl
  | cons c t =>
    rw [List.dropWhile_cons, if_neg]
    rw [h c rfl]
    exact Bool.false_ne_true

/-- Heads surviving `dropWhile` fail the predicate. -/
theorem head?_dropWhile {p : Char → Bool} (l : Line) :
    ∀ c, (l.dropWhile p).head? = some c → p c = false := by
  induction l with
  | nil =>
    intro c h
    exact Option.noConfusion h
  | cons a t ih =>
    intro c h
    by_cases hp : p a = true
    · rw [List.dropWhile_cons, if_pos hp] at h
      exact ih c h
    · rw [List.dropWhile_cons, if_neg hp] at h
      rw [show a = c from Option.some_injective _ h] at hp
      exact Bool.eq_false_iff.mpr hp

/-- Dropping twice is dropping once. -/
theorem dropWhile_idem {p : Char → Bool} (l : Line) :
    (l.dropWhile p).dropWhile p = l.dropWhile p :=
  dropWhile_eq_self_of_head (head?_dropWhile l)

/-- A nonempty prefix shares its head. -/
theorem head?_of_isPrefix {l u : Line} (h : l <+: u) {c : Char} {t : Line}
    (hl : l = c :: t) : u.head? = some c := by
  obtain ⟨r, rfl⟩ := h
  rw [hl]
  rfl


/-- The right strip is a prefix of its argument. -/
theorem rstrip_front (u : Line) : (u.reverse.dropWhile isPyWS).reverse <+: u := by
  rw [← List.reverse_suffix, List.reverse_reverse]
  exact List.dropWhile_suffix _

/-- The head survives a right strip. -/
theorem head?_rstrip (w : Line) (c : Char)
    (h : ((w.reverse.dropWhile isPyWS).reverse).head? = some c) : w.head? = some c := by
  cases hx : (w.reverse.dropWhile isPyWS).reverse with
  | nil =>
    rw [hx] at h
    exact Option.noConfusion h
  | cons a t =>
    have ha : a = c := by
      rw [hx] at h
      injection h with h'
    subst ha
    exact head?_of_isPrefix (rstrip_front w) hx

/-- The head of a stripped line is not whitespace. -/
theorem stripL_head_not_ws (l : Line) :
    ∀ c, (stripL l).head? = some c → isPyWS c = false := by
  intro c h
  exact head?_dropWhile l c (head?_rstrip (l.dropWhile isPyWS) c h)

/-- A stripped line has no leading whitespace. -/
theorem stripL_lstrip (l : Line) : (stripL l).dropWhile isPyWS = stripL l :=
  dropWhile_eq_self_of_head (stripL_head_not_ws l)

/-- A stripped line has no trailing whitespace. -/
theorem stripL_rev_strip (l : Line) :
    (stripL l).reverse.dropWhile isPyWS = (stripL l).reverse := by
  show ((((l.dropWhile isPyWS).reverse.dropWhile isPyWS).reverse).reverse).dropWhile isPyWS = _
  rw [List.reverse_reverse, dropWhile_idem, stripL, List.reverse_reverse]

/-- Stripping is idempotent. -/
theorem stripL_idem (l : Line) : stripL (stripL l) = stripL l := by
  show ((((stripL l).dropWhile isPyWS).reverse).dropWhile isPyWS).reverse = stripL l
  rw [stripL_lstrip, stripL_rev_strip, List.reverse_reverse]

/-- A self-stripped line is unchanged by the left strip alone. -/
theorem ldrop_eq_self_of_stripped {v : Line} (h : stripL v = v) :
    v.dropWhile isPyWS = v := by
  conv_lhs => rw [← h]
  rw [stripL_lstrip, h]

/-- A self-stripped line is unchanged by the right strip alone. -/
theorem rdrop_eq_self_of_stripped {v : Line} (h : stripL v = v) :
    v.reverse.dropWhile isPyWS = v.reverse := by
  conv_lhs => rw [← h]
  rw [stripL_rev_strip, h]

/-- The head of a nonempty self-stripped line is not whitespace. -/
theorem head_not_ws_of_stripped {c : Char} {t : Line} (h : stripL (c :: t) = c :: t) :
    isPyWS c = false := by
  apply stripL_head_not_ws (c :: t)
  rw [h]
  rfl

/-- A unit-section header is in particular a bracketed header. -/
theorem bracket_of_unit {s : Line} (h : ("[unit_".data).isPrefixOf s = true) :
    ("[".data).isPrefixOf s = true := by
  cases s with
  | nil => exact absurd h (by decide)
  | cons c t =>
    have heq : ("[unit_".data).isPrefixOf (c :: t)
        = (('[' == c) && (("unit_".data).isPrefixOf t)) := rfl
    rw [heq, Bool.and_eq_true] at h
    show (('[' == c) && (([] : Line).isPrefixOf t)) = true
    rw [h.1]
    simp [List.isPrefixOf]

/-- A requirement opener is not a bracketed header. -/
theorem reqs_not_bracket {s : Line} (h : ("reqs".data).isPrefixOf s = true) :
    ("[".data).isPrefixOf s = false ∧ ("[unit_".data).isPrefixOf s = false := by
  cases s with
  | nil => exact absurd h (by decide)
  | cons c t =>
    have heq : ("reqs".data).isPrefixOf (c :: t)
        = (('r' == c) && (("eqs".data).isPrefixOf t)) := rfl
    rw [heq, Bool.and_eq_true] at h
    have hc : c = 'r' := (beq_iff_eq.mp h.1).symm
    subst hc
    exact ⟨rfl, rfl⟩

/-- Loop step: a bracketed header stops the scan (for a unit header, only
past the first body line). -/
theorem parseLoop_break (l : Line) (rest : List Line) (first : Bool) (r : RawRecord)
    (inR : Bool) (buf : Line)
    (hb : ("[".data).isPrefixOf (stripL l) = true)
    (hu : ("[unit_".data).isPrefixOf (stripL l) = true → first = false) :
    parseLoop (l :: rest) first r inR buf = r := by
  simp only [parseLoop]
  by_cases h2 : ("[unit_".data).isPrefixOf (stripL l) = true
  · rw [if_neg (fun hx => hx.2 h2), if_pos ⟨h2, hu h2⟩]
  · rw [if_pos ⟨hb, h2⟩]

/-- Loop step: a requirement opener (re)enters accumulation mode with a
fresh buffer, whatever the current mode. -/
theorem parseLoop_reqs_open (l : Line) (rest : List Line) (first : Bool) (r : RawRecord)
    (inR : Bool) (buf : Line)
    (h : ("reqs".data).isPrefixOf (stripL l) = true) :
    parseLoop (l :: rest) first r inR buf = parseLoop rest false r true (stripL l) := by
  obtain ⟨hb, hu⟩ := reqs_not_bracket h
  simp only [parseLoop]
  rw [if_neg (fun hx => absurd hx.1 (by simp [hb])),
      if_neg (fun hx => absurd hx.1 (by simp [hu])),
      if_pos h]

/-- Loop step: an accumulated line that does not close the block. -/
theorem parseLoop_accum (l : Line) (rest : List Line) (first : Bool) (r : RawRecord)
    (buf : Line)
    (hb : ("[".data).isPrefixOf (stripL l) = false)
    (hr : ("reqs".data).isPrefixOf (stripL l) = false)
    (he : endsBrace (stripL l) = false) :
    parseLoop (l :: rest) first r true buf
      = parseLoop rest false r true (buf ++ ' ' :: stripL l) := by
  simp only [parseLoop]
  rw [if_neg (fun hx => absurd hx.1 (by simp [hb])),
      if_neg (fun hx => absurd (bracket_of_unit hx.1) (by simp [hb])),
      if_neg (fun hx => absurd hx (by simp [hr])),
      if_pos trivial, stripL_idem, if_neg (fun hx => absurd hx (by simp [he]))]

/-- Loop step: the closing line of a requirements block parses the buffer
into the record's `reqs` entry and leaves accumulation mode. -/
theorem parseLoop_close (l : Line) (rest : List Line) (first : Bool) (r : RawRecord)
    (buf : Line)
    (hb : ("[".data).isPrefixOf (stripL l) = false)
    (hr : ("reqs".data).isPrefixOf (stripL l) = false)
    (he : endsBrace (stripL l) = true) :
    parseLoop (l :: rest) first r true buf
      = parseLoop rest false
          (insertRec r ("reqs".data) (Value.vreqs (parse_reqs (buf ++ ' ' :: stripL l))))
          false [] := by
  simp only [parseLoop]
  rw [if_neg (fun hx => absurd hx.1 (by simp [hb])),
      if_neg (fun hx => absurd (bracket_of_unit hx.1) (by simp [hb])),
      if_neg (fun hx => absurd hx (by simp [hr])),
      if_pos trivial, stripL_idem, if_pos he]

/-- Loop step: an ordinary line outside accumulation mode goes through
`key = value` handling. -/
theorem parseLoop_kv (l : Line) (rest : List Line) (first : Bool) (r : RawRecord)
    (buf : Line)
    (hb : ("[".data).isPrefixOf (stripL l) = false)
    (hr : ("reqs".data).isPrefixOf (stripL l) = false) :
    parseLoop (l :: rest) first r false buf
      = parseLoop rest false (applyKV r (stripL l)) false buf := by
  simp only [parseLoop]
  rw [if_neg (fun hx => absurd hx.1 (by simp [hb])),
      if_neg (fun hx => absurd (bracket_of_unit hx.1) (by simp [hb])),
      if_neg (fun hx => absurd hx (by simp [hr])),
      if_neg (fun hx => Bool.noConfusion hx)]

/-- While in accumulation mode, lines that never close the block leave the
record untouched, up to the next bracketed header or the end of input. -/
theorem parseLoop_open_never (rest : List Line) : ∀ (r : RawRecord) (buf : Line),
    (∀ l ∈ rest.takeWhile (fun l => !(("[".data).isPrefixOf (stripL l))),
        endsBrace (stripL l) = false) →
    parseLoop rest false r true buf = r := by
  induction rest with
  | nil =>
    intro r buf _
    rfl
  | cons l t ih =>
    intro r buf H
    by_cases hb : ("[".data).isPrefixOf (stripL l) = true
    · exact parseLoop_break l t false r true buf hb (fun _ => rfl)
    · have hbf : ("[".data).isPrefixOf (stripL l) = false := Bool.eq_false_iff.mpr hb
      have hmem : ∀ x ∈ t.takeWhile (fun l => !(("[".data).isPrefixOf (stripL l))),
          endsBrace (stripL x) = false := by
        intro x hx
        apply H
        rw [List.takeWhile_cons, if_pos (by simp [hbf])]
        exact List.mem_cons_of_mem _ hx
      by_cases hr : ("reqs".data).isPrefixOf (stripL l) = true
      · rw [parseLoop_reqs_open l t false r true buf hr]
        exact ih r (stripL l) hmem
      · have hrf : ("reqs".data).isPrefixOf (stripL l) = false := Bool.eq_false_iff.mpr hr
        have hne : endsBrace (stripL l) = false := by
          apply H
          rw [List.takeWhile_cons, if_pos (by simp [hbf])]
          exact List.mem_cons_self _ _
        rw [parseLoop_accum l t false r buf hbf hrf hne]
        exact ih r _ hmem

/-- Claim C9 (amended): from a requirement opener onward — even an opener
whose own line ends with a closing brace — if no later line before the next
bracketed header or the end of input ends with a closing brace, the loop
returns the record exactly as it stood at the opener: the consumed lines
contribute no key-value field and neither add nor change a `reqs` key. -/
theorem claim_C9_amended (l₀ : Line) (rest : List Line) (first : Bool) (r : RawRecord)
    (buf : Line)
    (h0 : ("reqs".data).isPrefixOf (stripL l₀) = true)
    (H : ∀ l ∈ rest.takeWhile (fun l => !(("[".data).isPrefixOf (stripL l))),
        endsBrace (stripL l) = false) :
    parseLoop (l₀ :: rest) first r false buf = r := by
  rw [parseLoop_reqs_open l₀ rest first r false buf h0]
  exact parseLoop_open_never rest r (stripL l₀) H

/-- Claim C9 counterexample: in this section a first requirements block
closes (adding the `reqs` key) and a later opener re-enters accumulation
mode with no subsequent line ending in a closing brace.  That opener
satisfies the claim's hypothesis, yet the returned record does contain a
`reqs` key — the one from the earlier closed block. -/
theorem claim_C9_counterexample :
    parse_unit_section
      ["[unit_x]".data, "reqs = \x7b".data,
       "\"Tech\", \"Pottery\", \"Player\" \x7d".data,
       "reqs = \x7b".data, "\"Tech\", \"Alphabet\"".data] 0
      = [("reqs".data, Value.vreqs [⟨"Tech".data, "Pottery".data, "Player".data⟩])] := by
  rfl

/-- Claim C9 witness: a concrete instantiation of the amended claim, with an
opener that itself ends in a closing brace. -/
theorem claim_C9_witness :
    parseLoop ["reqs = \x7b \x7d".data, "\"Tech\", \"Pottery\"".data] false
      [("attack".data, Value.vint 3)] false [] = [("attack".data, Value.vint 3)] := by
  exact claim_C9_amended _ _ false _ [] (by decide) (by decide)

/-- A head on which `dropWhile` stalls fails the predicate. -/
theorem head_not_of_dropWhile_eq_self {p : Char → Bool} {d : Char} {w' : Line}
    (h : (d :: w').dropWhile p = d :: w') : p d = false := by
  by_contra hx
  have hd : p d = true := by
    cases hpd : p d
    · exact absurd hpd hx
    · rfl
  rw [List.dropWhile_cons, if_pos hd] at h
  have hlen := congrArg List.length h
  have hle := List.IsSuffix.length_le (List.dropWhile_suffix (l := w') p)
  simp only [List.length_cons] at hlen
  omega

/-- Taking up to the first equals sign across an append. -/
theorem takeWhile_append_until_eq {xs ys : Line} (h : '=' ∉ xs) :
    (xs ++ '=' :: ys).takeWhile (fun c => c ≠ '=') = xs := by
  induction xs with
  | nil =>
    rw [List.nil_append, List.takeWhile_cons, if_neg (by simp)]
  | cons a t ih =>
    have ha : a ≠ '=' := fun hx => h (hx ▸ List.mem_cons_self a t)
    rw [List.cons_append, List.takeWhile_cons, if_pos (by simp [ha]),
      ih (fun hx => h (List.mem_cons_of_mem a hx))]

/-- Dropping up to the first equals sign across an append. -/
theorem dropWhile_append_until_eq {xs ys : Line} (h : '=' ∉ xs) :
    (xs ++ '=' :: ys).dropWhile (fun c => c ≠ '=') = '=' :: ys := by
  induction xs with
  | nil =>
    rw [List.nil_append, List.dropWhile_cons, if_neg (by simp)]
  | cons a t ih =>
    have ha : a ≠ '=' := fun hx => h (hx ▸ List.mem_cons_self a t)
    rw [List.cons_append, List.dropWhile_cons, if_pos (by simp [ha]),
      ih (fun hx => h (List.mem_cons_of_mem a hx))]

/-- Parsing a single-line section holding one numeric `key = value` line:
the record binds the key to the integer coercion of the quote-stripped value
when the coercion succeeds, and to the raw quote-stripped string when it
fails; parsing always completes. -/
theorem parse_numeric_line (k v : Line)
    (hk : k ∈ numericKeys)
    (hks : stripL k = k) (hkne : k ≠ []) (hkeq : '=' ∉ k)
    (hD : ∀ z, ("[".data).isPrefixOf (k ++ z) = false)
    (hE : ∀ z, ("reqs".data).isPrefixOf (k ++ z) = false)
    (hvs : stripL v = v) (hvne : v ≠ []) :
    parse_unit_section ["[unit_x]".data, k ++ ' ' :: '=' :: ' ' :: v] 0
      = [(k, match pyInt (stripQuotesL v) with
             | some n => Value.vint n
             | none => Value.vstr (stripQuotesL v))] := by
  obtain ⟨c, t, rfl⟩ : ∃ c t, k = c :: t := by
    cases k with
    | nil => exact absurd rfl hkne
    | cons c t => exact ⟨c, t, rfl⟩
  have hcw : isPyWS c = false := head_not_ws_of_stripped hks
  have hw : v.reverse.dropWhile isPyWS = v.reverse := rdrop_eq_self_of_stripped hvs
  obtain ⟨d, w', hwd⟩ : ∃ d w', v.reverse = d :: w' := by
    cases hvv : v.reverse with
    | nil =>
      have : v = [] := by
        rw [← List.reverse_reverse v, hvv]
        rfl
      exact absurd this hvne
    | cons d w' => exact ⟨d, w', rfl⟩
  have hdws : isPyWS d = false := by
    rw [hwd] at hw
    exact head_not_of_dropWhile_eq_self hw
  have hline : stripL ((c :: t) ++ ' ' :: '=' :: ' ' :: v) = (c :: t) ++ ' ' :: '=' :: ' ' :: v := by
    unfold stripL
    rw [List.cons_append, List.dropWhile_cons, if_neg (by simp [hcw])]
    have hhead : ((c :: (t ++ ' ' :: '=' :: ' ' :: v)).reverse).head? = some d := by
      rw [← List.cons_append,
        show ' ' :: '=' :: ' ' :: v = [' ', '=', ' '] ++ v from rfl,
        List.reverse_append, List.reverse_append, hwd]
      rfl
    rw [dropWhile_eq_self_of_head
        (fun e he => by
          rw [hhead] at he
          injection he with h'
          rw [← h']
          exact hdws),
      List.reverse_reverse]
  have hsplit : (c :: t) ++ ' ' :: '=' :: ' ' :: v = ((c :: t) ++ [' ']) ++ '=' :: ' ' :: v := by
    simp
  have hnomem : '=' ∉ (c :: t) ++ [' '] := by
    intro hx
    rcases List.mem_append.mp hx with h | h
    · exact hkeq h
    · simp at h
  have hkstrip : stripL ((c :: t) ++ [' ']) = c :: t := by
    unfold stripL
    rw [List.cons_append, List.dropWhile_cons, if_neg (by simp [hcw])]
    have h2 : (c :: (t ++ [' '])).reverse = ' ' :: (c :: t).reverse := by
      rw [← List.cons_append, List.reverse_append]
      rfl
    rw [h2, List.dropWhile_cons, if_pos (by decide), rdrop_eq_self_of_stripped hks,
      List.reverse_reverse]
  have hvstrip : stripL (' ' :: v) = v := by
    unfold stripL
    rw [List.dropWhile_cons, if_pos (by decide), ldrop_eq_self_of_stripped hvs,
      rdrop_eq_self_of_stripped hvs, List.reverse_reverse]
  show parseLoop [(c :: t) ++ ' ' :: '=' :: ' ' :: v] true [] false [] = _
  rw [parseLoop_kv _ _ _ _ _ (by rw [hline]; exact hD _) (by rw [hline]; exact hE _), hline]
  show applyKV [] ((c :: t) ++ ' ' :: '=' :: ' ' :: v) = _
  simp only [applyKV]
  rw [if_pos (by simp : '=' ∈ (c :: t) ++ ' ' :: '=' :: ' ' :: v)]
  rw [hsplit, takeWhile_append_until_eq hnomem, dropWhile_append_until_eq hnomem]
  show (if stripL ((c :: t) ++ [' ']) ∈ numericKeys then _ else _) = _
  rw [hkstrip, if_pos hk]
  show (match pyInt (stripQuotesL (stripL (' ' :: v))) with
        | some n => insertRec [] (c :: t) (Value.vint n)
        | none => insertRec [] (c :: t) (Value.vstr (stripQuotesL (stripL (' ' :: v))))) = _
  rw [hvstrip]
  cases hpi : pyInt (stripQuotesL v) with
  | some n => rfl
  | none => rfl

/-- Claim C6: for every key of the fixed numeric-field set and every
(stripped, nonempty) value string, the parser stores the integer coercion of
the quote-stripped value when the coercion succeeds and the raw
quote-stripped string when it fails; the section parse always completes with
the binding present. -/
theorem claim_C6 (k v : Line) (hk : k ∈ numericKeys) (hvs : stripL v = v) (hvne : v ≠ []) :
    parse_unit_section ["[unit_x]".data, k ++ ' ' :: '=' :: ' ' :: v] 0
      = [(k, match pyInt (stripQuotesL v) with
             | some n => Value.vint n
             | none => Value.vstr (stripQuotesL v))] := by
  fin_cases hk
  · exact parse_numeric_line _ v (by decide) (by decide) (by decide) (by decide)
      (fun z => rfl) (fun z => rfl) hvs hvne
  · exact parse_numeric_line _ v (by decide) (by decide) (by decide) (by decide)
      (fun z => rfl) (fun z => rfl) hvs hvne
  · exact parse_numeric_line _ v (by decide) (by decide) (by decide) (by decide)
      (fun z => rfl) (fun z => rfl) hvs hvne
  · exact parse_numeric_line _ v (by decide) (by decide) (by decide) (by decide)
      (fun z => rfl) (fun z => rfl) hvs hvne
  · exact parse_numeric_line _ v (by decide) (by decide) (by decide) (by decide)
      (fun z => rfl) (fun z => rfl) hvs hvne
  · exact parse_numeric_line _ v (by decide) (by decide) (by decide) (by decide)
      (fun z => rfl) (fun z => rfl) hvs hvne
  · exact parse_numeric_line _ v (by decide) (by decide) (by decide) (by decide)
      (fun z => rfl) (fun z => rfl) hvs hvne
  · exact parse_numeric_line _ v (by decide) (by decide) (by decide) (by decide)
      (fun z => rfl) (fun z => rfl) hvs hvne
  · exact parse_numeric_line _ v (by decide) (by decide) (by decide) (by decide)
      (fun z => rfl) (fun z => rfl) hvs hvne
  · exact parse_numeric_line _ v (by decide) (by decide) (by decide) (by decide)
      (fun z => rfl) (fun z => rfl) hvs hvne
  · exact parse_numeric_line _ v (by decide) (by decide) (by decide) (by decide)
      (fun z => rfl) (fun z => rfl) hvs hvne
  · exact parse_numeric_line _ v (by decide) (by decide) (by decide) (by decide)
      (fun z => rfl) (fun z => rfl) hvs hvne
  · exact parse_numeric_line _ v (by decide) (by decide) (by decide) (by decide)
      (fun z => rfl) (fun z => rfl) hvs hvne
  · exact parse_numeric_line _ v (by decide) (by decide) (by decide) (by decide)
      (fun z => rfl) (fun z => rfl) hvs hvne

/-- Claim C6 witness: the line `attack = "3"` yields the integer 3. -/
theorem claim_C6_witness :
    parse_unit_section ["[unit_x]".data, "attack = \"3\"".data] 0
      = [("attack".data, Value.vint 3)] := by
  have h := claim_C6 ("attack".data) ("\"3\"".data) (by decide) (by decide) (by decide)
  exact h

/-- Key membership after a dict insert. -/
theorem recKeys_insert (r : RawRecord) (k : Line) (v : Value) (x : Line) :
    x ∈ recKeys (insertRec r k v) ↔ x = k ∨ x ∈ recKeys r := by
  induction r with
  | nil => simp [insertRec, recKeys]
  | cons p t ih =>
    obtain ⟨k', v'⟩ := p
    by_cases h : k' = k
    · subst h
      have hred : insertRec ((k', v') :: t) k' v = (k', v) :: t := by
        simp [insertRec]
      rw [hred]
      simp only [recKeys, List.map_cons, List.mem_cons]
      tauto
    · have hred : insertRec ((k', v') :: t) k v = (k', v') :: insertRec t k v := by
        simp only [insertRec]
        rw [if_neg h]
      rw [hred]
      simp only [recKeys, List.map_cons, List.mem_cons] at ih ⊢
      rw [ih]
      tauto

/-- A line with no equals sign leaves the record unchanged. -/
theorem applyKV_no_eq (r : RawRecord) (s : Line) (h : '=' ∉ s) : applyKV r s = r := by
  simp only [applyKV]
  rw [if_neg h]

/-- Key membership after ordinary `key = value` handling. -/
theorem recKeys_applyKV (r : RawRecord) (s : Line) (h : '=' ∈ s) (x : Line) :
    x ∈ recKeys (applyKV r s) ↔ x = keyOfLine s ∨ x ∈ recKeys r := by
  simp only [applyKV, keyOfLine]
  rw [if_pos h]
  by_cases h1 : stripL (s.takeWhile (fun c => c ≠ '=')) ∈ numericKeys
  · rw [if_pos h1]
    cases pyInt (stripQuotesL (stripL ((s.dropWhile (fun c => c ≠ '=')).tail))) with
    | some n => exact recKeys_insert r _ _ x
    | none => exact recKeys_insert r _ _ x
  · rw [if_neg h1]
    by_cases h2 : stripL (s.takeWhile (fun c => c ≠ '=')) = "flags".data
    · rw [if_pos h2]
      exact recKeys_insert r _ _ x
    · rw [if_neg h2]
      by_cases h3 : stripL (s.takeWhile (fun c => c ≠ '=')) = "roles".data
      · rw [if_pos h3]
        exact recKeys_insert r _ _ x
      · rw [if_neg h3]
        exact recKeys_insert r _ _ x

/-- Specification key set: a qualifying `key = value` line contributes its
key. -/
theorem specKeys_cons_kv {l : Line} (rest : List Line)
    (h1 : '=' ∈ stripL l) (h2 : ("[".data).isPrefixOf (stripL l) = false)
    (h3 : ("reqs".data).isPrefixOf (stripL l) = false) :
    specKeys (l :: rest) = keyOfLine (stripL l) :: specKeys rest := by
  unfold specKeys
  rw [List.filterMap_cons, if_pos ⟨h1, by simp [h2], by simp [h3]⟩]

/-- Specification key set: a non-qualifying line contributes nothing. -/
theorem specKeys_cons_skip {l : Line} (rest : List Line)
    (h : ¬ ('=' ∈ stripL l ∧ ¬ ("[".data).isPrefixOf (stripL l)
          ∧ ¬ ("reqs".data).isPrefixOf (stripL l))) :
    specKeys (l :: rest) = specKeys rest := by
  unfold specKeys
  rw [List.filterMap_cons, if_neg h]

/-- The empty body closed no requirements block. -/
theorem hasClosed_nil : ¬ HasClosed [] := by
  rintro ⟨b₁, o, b₂, c, b₃, heq, -, -, -⟩
  simp at heq

/-- A leading non-opener line does not affect block closure. -/
theorem hasClosed_cons {l : Line} {rest : List Line}
    (h : ("reqs".data).isPrefixOf (stripL l) = false) :
    HasClosed (l :: rest) ↔ HasClosed rest := by
  constructor
  · rintro ⟨b₁, o, b₂, c, b₃, heq, ho, hc1, hc2⟩
    cases b₁ with
    | nil =>
      simp only [List.nil_append] at heq
      injection heq with hh1 hh2
      rw [← hh1] at ho
      exact absurd ho (by simp [h])
    | cons x b₁' =>
      rw [List.cons_append] at heq
      injection heq with hh1 hh2
      exact ⟨b₁', o, b₂, c, b₃, hh2, ho, hc1, hc2⟩
  · rintro ⟨b₁, o, b₂, c, b₃, heq, ho, hc1, hc2⟩
    exact ⟨l :: b₁, o, b₂, c, b₃, by simp [heq], ho, hc1, hc2⟩

/-- A closed block witnesses closure. -/
theorem hasClosed_block {o : Line} {blk : List Line} {c : Line} {rest : List Line}
    (ho : ("reqs".data).isPrefixOf (stripL o) = true)
    (hc1 : ("reqs".data).isPrefixOf (stripL c) = false)
    (hc2 : endsBrace (stripL c) = true) :
    HasClosed (o :: blk ++ c :: rest) :=
  ⟨[], o, blk, c, rest, rfl, ho, by simp [hc1], hc2⟩

/-- A trailing unclosed block closes nothing: every later line either
re-opens accumulation or does not end with a closing brace. -/
theorem hasClosed_open_false {o : Line} {blk : List Line}
    (hblk : ∀ b ∈ blk,
      ("reqs".data).isPrefixOf (stripL b) = true ∨ endsBrace (stripL b) = false) :
    ¬ HasClosed (o :: blk) := by
  rintro ⟨b₁, o', b₂, c, b₃, heq, ho', hc1, hc2⟩
  have hcblk : c ∈ blk := by
    cases b₁ with
    | nil =>
      injection heq with hh1 hh2
      rw [hh2]
      exact List.mem_append.mpr (Or.inr (List.mem_cons_self c b₃))
    | cons x b₁' =>
      rw [List.cons_append] at heq
      injection heq with hh1 hh2
      rw [hh2]
      simp
  rcases hblk c hcblk with hx | hx
  · exact absurd hx hc1
  · rw [hx] at hc2
    exact Bool.noConfusion hc2

/-- Specification keys distribute over append. -/
theorem specKeys_append (xs ys : List Line) :
    specKeys (xs ++ ys) = specKeys xs ++ specKeys ys := by
  unfold specKeys
  exact List.filterMap_append xs ys _

/-- Lines that never qualify contribute no specification keys. -/
theorem specKeys_nil_of (xs : List Line)
    (h : ∀ b ∈ xs, ¬ ('=' ∈ stripL b ∧ ¬ ("[".data).isPrefixOf (stripL b)
          ∧ ¬ ("reqs".data).isPrefixOf (stripL b))) : specKeys xs = [] := by
  unfold specKeys
  exact List.filterMap_eq_nil_iff.mpr (fun b hb => if_neg (h b hb))

/-- A requirements block (opener, buffered lines, closing line) contributes
no specification keys. -/
theorem specKeys_block {o : Line} {blk : List Line} {c : Line} (rest : List Line)
    (ho : ("reqs".data).isPrefixOf (stripL o) = true)
    (hblk : ∀ b ∈ blk, ("reqs".data).isPrefixOf (stripL b) = true ∨ '=' ∉ stripL b)
    (hc : '=' ∉ stripL c) :
    specKeys ((o :: blk) ++ c :: rest) = specKeys rest := by
  have hnil : specKeys blk = [] := specKeys_nil_of blk (fun b hb => by
    rcases hblk b hb with h | h
    · exact fun hx => hx.2.2 h
    · exact fun hx => h hx.1)
  rw [List.cons_append, specKeys_cons_skip _ (fun hx => hx.2.2 ho), specKeys_append,
    hnil, List.nil_append, specKeys_cons_skip _ (fun hx => hc hx.1)]

/-- Accumulation travels through the buffered lines of a block without
touching the record, ending still in accumulation mode. -/
theorem parseLoop_blk (blk : List Line) : ∀ (r : RawRecord) (buf : Line),
    (∀ b ∈ blk, ("[".data).isPrefixOf (stripL b) = false ∧
      (("reqs".data).isPrefixOf (stripL b) = true ∨
        (endsBrace (stripL b) = false ∧ '=' ∉ stripL b))) →
    ∃ buf', ∀ rest, parseLoop (blk ++ rest) false r true buf
      = parseLoop rest false r true buf' := by
  induction blk with
  | nil =>
    intro r buf _
    exact ⟨buf, fun rest => rfl⟩
  | cons b t ih =>
    intro r buf hb
    obtain ⟨h1, h2⟩ := hb b (List.mem_cons_self b t)
    by_cases hr : ("reqs".data).isPrefixOf (stripL b) = true
    · obtain ⟨buf', hbuf⟩ := ih r (stripL b) (fun x hx => hb x (List.mem_cons_of_mem b hx))
      refine ⟨buf', fun rest => ?_⟩
      rw [List.cons_append, parseLoop_reqs_open b (t ++ rest) false r true buf hr, hbuf rest]
    · have hrf : ("reqs".data).isPrefixOf (stripL b) = false := Bool.eq_false_iff.mpr hr
      have hne : endsBrace (stripL b) = false := by
        rcases h2 with h | ⟨h, -⟩
        · exact absurd h hr
        · exact h
      obtain ⟨buf', hbuf⟩ :=
        ih r (buf ++ ' ' :: stripL b) (fun x hx => hb x (List.mem_cons_of_mem b hx))
      refine ⟨buf', fun rest => ?_⟩
      rw [List.cons_append, parseLoop_accum b (t ++ rest) false r buf h1 hrf hne, hbuf rest]

/-- A complete (opened and closed) requirements block sets the `reqs` key of
the record to some parsed requirement list, resetting the accumulation
state. -/
theorem parseLoop_closed (o : Line) (blk : List Line) (c : Line)
    (first : Bool) (r : RawRecord) (buf : Line)
    (ho : ("reqs".data).isPrefixOf (stripL o) = true)
    (hblk : ∀ b ∈ blk, ("[".data).isPrefixOf (stripL b) = false ∧
      (("reqs".data).isPrefixOf (stripL b) = true ∨
        (endsBrace (stripL b) = false ∧ '=' ∉ stripL b)))
    (hc1 : ("[".data).isPrefixOf (stripL c) = false)
    (hc2 : ("reqs".data).isPrefixOf (stripL c) = false)
    (hc3 : endsBrace (stripL c) = true) :
    ∃ rv, ∀ rest, parseLoop ((o :: blk) ++ c :: rest) first r false buf
      = parseLoop rest false (insertRec r ("reqs".data) (Value.vreqs rv)) false [] := by
  obtain ⟨buf', hbuf⟩ := parseLoop_blk blk r (stripL o) hblk
  refine ⟨parse_reqs (buf' ++ ' ' :: stripL c), fun rest => ?_⟩
  rw [List.cons_append, parseLoop_reqs_open o (blk ++ c :: rest) first r false buf ho,
    hbuf (c :: rest), parseLoop_close c rest false r buf' hc1 hc2 hc3]

/-- Main invariant: over a well-formed body the loop reaches a state that is
independent of what follows, and the keys of the record it accumulates are
exactly the starting keys, the specification keys of the body, and `reqs`
exactly when some requirements block of the body closed. -/
theorem parseLoop_wf {body : List Line} (hwf : WFBody body) :
    ∀ (r : RawRecord) (buf : Line) (first : Bool),
    ∃ r' inR' buf',
      (∀ rest, parseLoop (body ++ rest) first r false buf
          = parseLoop rest (first && body.isEmpty) r' inR' buf')
      ∧ (∀ x, x ∈ recKeys r' ↔ (x ∈ recKeys r ∨ x ∈ specKeys body
          ∨ (x = "reqs".data ∧ HasClosed body))) := by
  induction hwf with
  | nil =>
    intro r buf first
    refine ⟨r, false, buf, fun rest => ?_, fun x => ?_⟩
    · rw [List.nil_append]
      congr 1
      simp
    · simp [specKeys, hasClosed_nil]
  | kv l rest' h1 h2 h3 hwf' ih =>
    intro r buf first
    have hb2 : ("[".data).isPrefixOf (stripL l) = false := Bool.eq_false_iff.mpr h2
    have hb3 : ("reqs".data).isPrefixOf (stripL l) = false := Bool.eq_false_iff.mpr h3
    obtain ⟨r', inR', buf', hstep, hkeys⟩ := ih (applyKV r (stripL l)) buf false
    refine ⟨r', inR', buf', fun rest => ?_, fun x => ?_⟩
    · rw [List.cons_append, parseLoop_kv l (rest' ++ rest) first r buf hb2 hb3, hstep rest]
      congr 1
      simp
    · rw [hkeys x, recKeys_applyKV r (stripL l) h1 x, specKeys_cons_kv rest' h1 hb2 hb3,
        List.mem_cons, hasClosed_cons hb3]
      tauto
  | inert l rest' h1 h2 h3 hwf' ih =>
    intro r buf first
    have hb2 : ("[".data).isPrefixOf (stripL l) = false := Bool.eq_false_iff.mpr h2
    have hb3 : ("reqs".data).isPrefixOf (stripL l) = false := Bool.eq_false_iff.mpr h3
    obtain ⟨r', inR', buf', hstep, hkeys⟩ := ih r buf false
    refine ⟨r', inR', buf', fun rest => ?_, fun x => ?_⟩
    · rw [List.cons_append, parseLoop_kv l (rest' ++ rest) first r buf hb2 hb3,
        applyKV_no_eq r (stripL l) h1, hstep rest]
      congr 1
      simp
    · rw [hkeys x, specKeys_cons_skip rest' (fun hx => h1 hx.1), hasClosed_cons hb3]
  | block o blk c rest' ho hblk hc1 hc2 hc3 hc4 hwf' ih =>
    intro r buf first
    have hc1' : ("[".data).isPrefixOf (stripL c) = false := Bool.eq_false_iff.mpr hc1
    have hc2' : ("reqs".data).isPrefixOf (stripL c) = false := Bool.eq_false_iff.mpr hc2
    have hblk' : ∀ b ∈ blk, ("[".data).isPrefixOf (stripL b) = false ∧
        (("reqs".data).isPrefixOf (stripL b) = true ∨
          (endsBrace (stripL b) = false ∧ '=' ∉ stripL b)) :=
      fun b hb => ⟨Bool.eq_false_iff.mpr (hblk b hb).1, (hblk b hb).2⟩
    obtain ⟨rv, hrv⟩ := parseLoop_closed o blk c first r buf ho hblk' hc1' hc2' hc3
    obtain ⟨r', inR', buf', hstep, hkeys⟩ := ih (insertRec r ("reqs".data) (Value.vreqs rv)) [] false
    refine ⟨r', inR', buf', fun rest => ?_, fun x => ?_⟩
    · have hsh : (((o :: blk) ++ c :: rest') ++ rest) = (o :: blk) ++ (c :: (rest' ++ rest)) := by
        simp
      rw [hsh, hrv (rest' ++ rest), hstep rest]
      congr 1
      simp
    · have hhc : HasClosed ((o :: blk) ++ c :: rest') := hasClosed_block ho hc2' hc3
      have hsb : specKeys ((o :: blk) ++ c :: rest') = specKeys rest' :=
        specKeys_block rest' ho (fun b hb => (hblk' b hb).2.imp id And.right) hc4
      rw [hkeys x, recKeys_insert r _ _ x, hsb]
      constructor
      · rintro ((rfl | hx) | hx | ⟨rfl, -⟩)
        · exact Or.inr (Or.inr ⟨rfl, hhc⟩)
        · exact Or.inl hx
        · exact Or.inr (Or.inl hx)
        · exact Or.inr (Or.inr ⟨rfl, hhc⟩)
      · rintro (hx | hx | ⟨rfl, -⟩)
        · exact Or.inl (Or.inr hx)
        · exact Or.inr (Or.inl hx)
        · exact Or.inl (Or.inl rfl)
  | openBlock o blk ho hblk =>
    intro r buf first
    have hblk' : ∀ b ∈ blk, ("[".data).isPrefixOf (stripL b) = false ∧
        (("reqs".data).isPrefixOf (stripL b) = true ∨
          (endsBrace (stripL b) = false ∧ '=' ∉ stripL b)) :=
      fun b hb => ⟨Bool.eq_false_iff.mpr (hblk b hb).1, (hblk b hb).2⟩
    obtain ⟨buf', hbuf⟩ := parseLoop_blk blk r (stripL o) hblk'
    refine ⟨r, true, buf', fun rest => ?_, fun x => ?_⟩
    · rw [List.cons_append, parseLoop_reqs_open o (blk ++ rest) first r false buf ho, hbuf rest]
      congr 1
      simp
    · have hnc : ¬ HasClosed (o :: blk) :=
        hasClosed_open_false (fun b hb => ((hblk' b hb).2).imp id And.left)
      have hnil : specKeys (o :: blk) = [] := by
        rw [specKeys_cons_skip blk (fun hx => hx.2.2 ho)]
        exact specKeys_nil_of blk (fun b hb => by
          rcases (hblk' b hb).2 with h | ⟨-, h⟩
          · exact fun hx => hx.2.2 h
          · exact fun hx => h hx.1)
      rw [hnil]
      simp [hnc]

/-- Claim C3: for every line sequence, parsing a well-formed unit section at
its header consumes lines only up to the next bracketed section header (or
the end of input) — the record is the same as if the input ended there — and
the resulting single record's keys are exactly the keys of the section's
`key = value` lines, plus `reqs` exactly when a requirements block was
present and closed in the section.  Well-formedness (`WFBody`) requires the
section body not to start with another unit header and its requirement-block
lines to carry no stray equals sign or closing brace. -/
theorem claim_C3 (pre : List Line) (hd : Line) (body : List Line) (t : Line) (junk : List Line)
    (hwf : WFBody body)
    (ht : ("[".data).isPrefixOf (stripL t) = true)
    (hne : body ≠ [] ∨ ("[unit_".data).isPrefixOf (stripL t) = false) :
    (parse_unit_section ((pre ++ hd :: body) ++ t :: junk) pre.length
        = parse_unit_section (pre ++ hd :: body) pre.length)
    ∧ (∀ x, x ∈ recKeys (parse_unit_section ((pre ++ hd :: body) ++ t :: junk) pre.length)
          ↔ (x ∈ specKeys body ∨ (x = "reqs".data ∧ HasClosed body))) := by
  have hlen : (pre ++ [hd]).length = pre.length + 1 := by simp
  have hd1 : ((pre ++ hd :: body) ++ t :: junk).drop (pre.length + 1) = body ++ t :: junk := by
    have e1 : (pre ++ hd :: body) ++ t :: junk = (pre ++ [hd]) ++ (body ++ t :: junk) := by simp
    rw [e1, ← hlen, List.drop_left]
  have hd2 : (pre ++ hd :: body).drop (pre.length + 1) = body := by
    have e2 : pre ++ hd :: body = (pre ++ [hd]) ++ body := by simp
    rw [e2, ← hlen, List.drop_left]
  obtain ⟨r', inR', buf', hstep, hkeys⟩ := parseLoop_wf hwf [] [] true
  have hshort : parseLoop body true [] false [] = r' := by
    have hx := hstep []
    rw [List.append_nil] at hx
    rw [hx]
    rfl
  have hlong : parseLoop (body ++ t :: junk) true [] false [] = r' := by
    rw [hstep (t :: junk)]
    apply parseLoop_break t junk _ r' inR' buf' ht
    intro hu
    rcases hne with h | h
    · cases body with
      | nil => exact absurd rfl h
      | cons a b => simp
    · exact absurd hu (by simp [h])
  constructor
  · unfold parse_unit_section
    rw [hd1, hd2, hlong, hshort]
  · intro x
    unfold parse_unit_section
    rw [hd1, hlong, hkeys x]
    simp [recKeys]

/-- Claim C3 witness: a concrete section with a key-value line, an inert
line and a closed requirements block, terminated by the next unit header. -/
theorem claim_C3_witness :
    (parse_unit_section
        ["[unit_a]".data, "attack = 2".data, "xx".data, "reqs =".data,
         "\"Tech\", \"Bronze Working\", \"Player\"".data, "\x7d".data,
         "[unit_b]".data, "defense = 1".data] 0
      = parse_unit_section
        ["[unit_a]".data, "attack = 2".data, "xx".data, "reqs =".data,
         "\"Tech\", \"Bronze Working\", \"Player\"".data, "\x7d".data] 0)
    ∧ ("reqs".data ∈ recKeys (parse_unit_section
        ["[unit_a]".data, "attack = 2".data, "xx".data, "reqs =".data,
         "\"Tech\", \"Bronze Working\", \"Player\"".data, "\x7d".data,
         "[unit_b]".data, "defense = 1".data] 0)
      ↔ ("reqs".data ∈ specKeys
          ["attack = 2".data, "xx".data, "reqs =".data,
           "\"Tech\", \"Bronze Working\", \"Player\"".data, "\x7d".data]
        ∨ ("reqs".data = "reqs".data ∧ HasClosed
          ["attack = 2".data, "xx".data, "reqs =".data,
           "\"Tech\", \"Bronze Working\", \"Player\"".data, "\x7d".data]))) := by
  have h := claim_C3 [] ("[unit_a]".data)
    ["attack = 2".data, "xx".data, "reqs =".data,
     "\"Tech\", \"Bronze Working\", \"Player\"".data, "\x7d".data]
    ("[unit_b]".data) ["defense = 1".data]
    (WFBody.kv _ _ (by decide) (by decide) (by decide)
      (WFBody.inert _ _ (by decide) (by decide) (by decide)
        (WFBody.block ("reqs =".data)
          ["\"Tech\", \"Bronze Working\", \"Player\"".data] ("\x7d".data) []
          (by decide) (by decide) (by decide) (by decide) (by decide) (by decide)
          WFBody.nil)))
    (by decide) (Or.inl (by decide))
  exact ⟨h.1, h.2 ("reqs".data)⟩
